import Mathlib

/-!
Verification development for the stylegan2-pytorch training/inference code
(`train.py`, `generate.py`).  Python functions are shallowly embedded as Lean
functions; machine floats are idealised as `ℚ`/`ℝ`; Python exceptions are
modelled with an explicit error type inside `Except`.
-/

set_option autoImplicit false

namespace StyleGan2

/-- Python exception kinds that the embedded code can raise. -/
inductive PyErr where
  | keyError
  | valueError
  | attributeError
  | runtimeError
  deriving DecidableEq, Repr

/-! ## Decimal strings: models of Python `str(i)`, `str.zfill`, `int(s)` -/

/-- Value of a decimal digit character (`'0'` ↦ 0, …, `'9'` ↦ 9). -/
def digitVal (c : Char) : ℕ := c.toNat - 48

/-- Fuel-driven decimal printer: most-significant digit first. -/
def natCharsFuel : ℕ → ℕ → List Char
  | 0, _ => []
  | fuel + 1, n =>
    if n < 10 then [Nat.digitChar n]
    else natCharsFuel fuel (n / 10) ++ [Nat.digitChar (n % 10)]

/-- Model of Python `str(n)` for a natural number: decimal digits. -/
def natChars (n : ℕ) : List Char := natCharsFuel (n + 1) n

/-- Model of Python `str.zfill(width)`: left-pad with `'0'`. -/
def zfill (width : ℕ) (s : List Char) : List Char :=
  List.replicate (width - s.length) '0' ++ s

/-- Big-endian digit list to value: `[1,2,3] ↦ 123`. -/
def ofBE (ds : List ℕ) : ℕ := ds.foldl (fun a d => 10 * a + d) 0

/-- Scan the tail of a Python integer literal: digits, with single
underscores allowed only between digits. -/
def pyDigitsRest : List Char → Option (List ℕ)
  | [] => some []
  | c :: rest =>
    if c = '_' then
      match rest with
      | [] => none
      | c2 :: rest2 =>
        if c2.isDigit then (pyDigitsRest rest2).map (digitVal c2 :: ·) else none
    else if c.isDigit then (pyDigitsRest rest).map (digitVal c :: ·) else none

/-- A Python integer literal body: must start with a digit. -/
def pyDigitsFirst : List Char → Option (List ℕ)
  | [] => none
  | c :: rest =>
    if c.isDigit then (pyDigitsRest rest).map (digitVal c :: ·) else none

/-- Model of Python `int(s)`: optional sign, then digits (with underscores
between digits); any other input raises `ValueError`, modelled as `none`. -/
def pyInt (s : List Char) : Option ℤ :=
  match s with
  | [] => none
  | c :: rest =>
    if c = '-' then (pyDigitsFirst rest).map (fun ds => -(ofBE ds : ℤ))
    else if c = '+' then (pyDigitsFirst rest).map (fun ds => (ofBE ds : ℤ))
    else (pyDigitsFirst (c :: rest)).map (fun ds => (ofBE ds : ℤ))

/-- Model of `os.path.basename`: everything after the last `'/'`. -/
def basename (l : List Char) : List Char :=
  ((l.reverse.takeWhile (fun c => c ≠ '/')).reverse)

/-- Model of `os.path.splitext(·)[0]`: drop the last-dot extension. -/
def splitextStem (l : List Char) : List Char :=
  let r := l.reverse
  let i := r.findIdx (fun c => c = '.')
  if i < r.length then (r.drop (i + 1)).reverse else l

/-! ## Checkpoint save / resume (`train.py` lines 506-514 and 608-625) -/

/-- A serialized parameter/state dictionary, idealised as an association
list from parameter name to (rational) value blob. -/
abbrev StateDict := List (String × ℚ)

/-- The configuration bundled into a checkpoint (opaque to the round-trip). -/
structure ArgsBlob where
  blob : List (String × ℚ)
  deriving DecidableEq, Repr

/-- The dictionary passed to `torch.save` in `train.py`:
generator, discriminator, EMA generator, both optimizer states, the args
object and the current augmentation strength. -/
structure Checkpoint where
  g : StateDict
  d : StateDict
  g_ema : StateDict
  g_optim : StateDict
  d_optim : StateDict
  args : ArgsBlob
  ada_aug_p : ℚ
  deriving DecidableEq, Repr

/-- Checkpoint filename written by the training loop: when a wandb run
object exists the name is `checkpoint/{run.name}_{i:06}.pt`, otherwise
`checkpoint/{i:06}.pt`. -/
def ckptFilename (runName : Option (List Char)) (i : ℕ) : List Char :=
  "checkpoint/".toList ++
    (match runName with
     | some nm => nm ++ ('_' :: zfill 6 (natChars i))
     | none => zfill 6 (natChars i)) ++ ".pt".toList

/-- `torch.save` of the checkpoint bundle at iteration `i` (serialization
itself is the identity on the bundle): returns the filename and the stored
bundle. -/
def saveCheckpoint (runName : Option (List Char)) (i : ℕ) (ck : Checkpoint) :
    List Char × Checkpoint :=
  (ckptFilename runName i, ck)

/-- The state the resume path (`__main__`, `--ckpt`) reconstructs. -/
structure ResumedState where
  g : StateDict
  d : StateDict
  g_ema : StateDict
  g_optim : StateDict
  d_optim : StateDict
  start_iter : ℤ
  deriving DecidableEq, Repr

/-- Model of the `--ckpt` resume path: load the bundle, then try
`args.start_iter = int(os.path.splitext(os.path.basename(path))[0])`,
keeping the previous `start_iter` (0) on `ValueError`. -/
def resumeFrom (path : List Char) (ck : Checkpoint) (start_iter0 : ℤ) :
    ResumedState :=
  let stem := splitextStem (basename path)
  let si : ℤ := match pyInt stem with
    | some n => n
    | none => start_iter0
  { g := ck.g, d := ck.d, g_ema := ck.g_ema,
    g_optim := ck.g_optim, d_optim := ck.d_optim, start_iter := si }

/-! ### Decimal round-trip lemmas -/

theorem digitVal_digitChar {d : ℕ} (hd : d < 10) :
    digitVal (Nat.digitChar d) = d := by
  interval_cases d <;> decide

theorem isDigit_digitChar {d : ℕ} (hd : d < 10) :
    (Nat.digitChar d).isDigit = true := by
  interval_cases d <;> decide

theorem ofBE_append (l : List ℕ) (d : ℕ) :
    ofBE (l ++ [d]) = 10 * ofBE l + d := by
  simp [ofBE, List.foldl_append]

theorem natCharsFuel_spec :
    ∀ fuel n, n < fuel →
      natCharsFuel fuel n ≠ [] ∧
      (∀ c ∈ natCharsFuel fuel n, c.isDigit = true) ∧
      ofBE ((natCharsFuel fuel n).map digitVal) = n := by
  intro fuel
  induction fuel with
  | zero => intro n hn; omega
  | succ fuel ih =>
    intro n hn
    by_cases h10 : n < 10
    · refine ⟨by simp [natCharsFuel, h10], ?_, ?_⟩
      · intro c hc
        simp [natCharsFuel, h10] at hc
        subst hc
        exact isDigit_digitChar h10
      · simp [natCharsFuel, h10, ofBE, digitVal_digitChar h10]
    · have hdiv : n / 10 < fuel := by omega
      obtain ⟨hne, hdig, hval⟩ := ih (n / 10) hdiv
      refine ⟨?_, ?_, ?_⟩
      · simp [natCharsFuel, h10]
      · intro c hc
        simp only [natCharsFuel, if_neg h10, List.mem_append,
          List.mem_singleton] at hc
        rcases hc with hc | hc
        · exact hdig c hc
        · subst hc; exact isDigit_digitChar (Nat.mod_lt _ (by norm_num))
      · have : natCharsFuel (fuel + 1) n =
            natCharsFuel fuel (n / 10) ++ [Nat.digitChar (n % 10)] := by
          simp [natCharsFuel, h10]
        rw [this, List.map_append, List.map_singleton, ofBE_append, hval,
          digitVal_digitChar (Nat.mod_lt _ (by norm_num))]
        omega

theorem natChars_ne_nil (n : ℕ) : natChars n ≠ [] :=
  (natCharsFuel_spec (n + 1) n (Nat.lt_succ_self n)).1

theorem natChars_digits (n : ℕ) : ∀ c ∈ natChars n, c.isDigit = true :=
  (natCharsFuel_spec (n + 1) n (Nat.lt_succ_self n)).2.1

theorem ofBE_natChars (n : ℕ) : ofBE ((natChars n).map digitVal) = n :=
  (natCharsFuel_spec (n + 1) n (Nat.lt_succ_self n)).2.2

/-- On a list of pure digit characters, the tail scanner succeeds. -/
theorem pyDigitsRest_of_digits :
    ∀ l : List Char, (∀ c ∈ l, c.isDigit = true) →
      pyDigitsRest l = some (l.map digitVal) := by
  intro l
  induction l with
  | nil => intro _; rfl
  | cons c rest ih =>
    intro h
    have hc : c.isDigit = true := h c (List.mem_cons_self c rest)
    have hcu : c ≠ '_' := by
      intro he; subst he; simp [Char.isDigit] at hc
    have hrest := ih (fun c' hc' => h c' (List.mem_cons_of_mem c hc'))
    rw [pyDigitsRest.eq_def]
    simp [hcu, hc, hrest]

theorem pyDigitsFirst_of_digits (l : List Char) (hne : l ≠ [])
    (h : ∀ c ∈ l, c.isDigit = true) :
    pyDigitsFirst l = some (l.map digitVal) := by
  cases l with
  | nil => exact absurd rfl hne
  | cons c rest =>
    have hc : c.isDigit = true := h c (List.mem_cons_self c rest)
    have := pyDigitsRest_of_digits rest
      (fun c' hc' => h c' (List.mem_cons_of_mem c hc'))
    simp [pyDigitsFirst, hc, this]

theorem ofBE_replicate_zero_append (k : ℕ) (ds : List ℕ) :
    ofBE (List.replicate k 0 ++ ds) = ofBE ds := by
  induction k with
  | zero => simp
  | succ k ih =>
    have : List.replicate (k + 1) 0 ++ ds = 0 :: (List.replicate k 0 ++ ds) := by
      simp [List.replicate_succ]
    rw [this]
    simpa [ofBE] using ih

/-- Parsing the zero-padded decimal of `n` recovers `n`. -/
theorem pyInt_zfill_natChars (width n : ℕ) :
    pyInt (zfill width (natChars n)) = some (n : ℤ) := by
  have hdig : ∀ c ∈ zfill width (natChars n), c.isDigit = true := by
    intro c hc
    rcases List.mem_append.mp hc with hc | hc
    · have := List.eq_of_mem_replicate hc
      subst this; decide
    · exact natChars_digits n c hc
  have hne : zfill width (natChars n) ≠ [] := by
    intro h
    rcases List.append_eq_nil.mp h with ⟨_, h2⟩
    exact natChars_ne_nil n h2
  have hval : ofBE ((zfill width (natChars n)).map digitVal) = n := by
    have : (zfill width (natChars n)).map digitVal =
        List.replicate (width - (natChars n).length) 0 ++
          (natChars n).map digitVal := by
      simp [zfill, digitVal]
    rw [this, ofBE_replicate_zero_append, ofBE_natChars]
  cases hz : zfill width (natChars n) with
  | nil => exact absurd hz hne
  | cons c rest =>
    have hc : c.isDigit = true := by
      have := hdig c; rw [hz] at this
      exact this (List.mem_cons_self c rest)
    have hcm : c ≠ '-' := by
      intro he; subst he; simp [Char.isDigit] at hc
    have hcp : c ≠ '+' := by
      intro he; subst he; simp [Char.isDigit] at hc
    have hfirst : pyDigitsFirst (c :: rest) = some ((c :: rest).map digitVal) := by
      apply pyDigitsFirst_of_digits _ (by simp)
      intro c' hc'; have := hdig c'; rw [hz] at this; exact this hc'
    have hv2 : ofBE ((c :: rest).map digitVal) = n := by
      rw [hz] at hval; exact hval
    simp only [List.map_cons] at hv2
    simp [pyInt, hcm, hcp, hfirst, hv2]

theorem takeWhile_all_append (p : Char → Bool) (l1 l2 : List Char)
    (h : ∀ c ∈ l1, p c = true) :
    (l1 ++ l2).takeWhile p = l1 ++ l2.takeWhile p := by
  induction l1 with
  | nil => simp
  | cons c rest ih =>
    have hc : p c = true := h c (List.mem_cons_self c rest)
    simp [List.takeWhile, hc, ih (fun c' hc' => h c' (List.mem_cons_of_mem c hc'))]

theorem basename_concat (pre r : List Char) (h : ∀ c ∈ r, c ≠ '/') :
    basename (pre ++ '/' :: r) = r := by
  unfold basename
  rw [List.reverse_append]
  have hall : ∀ c ∈ r.reverse, (fun c => c ≠ '/' : Char → Bool) c = true := by
    intro c hc
    simp only [ne_eq, decide_eq_true_eq]
    exact h c (List.mem_reverse.mp hc)
  rw [show ('/' :: r).reverse = r.reverse ++ ['/'] by simp,
    List.append_assoc, takeWhile_all_append _ _ _ hall]
  simp [List.takeWhile]

theorem splitextStem_pt (s : List Char) :
    splitextStem (s ++ ['.', 'p', 't']) = s := by
  unfold splitextStem
  have h1 : (s ++ ['.', 'p', 't']).reverse = 't' :: 'p' :: '.' :: s.reverse := by
    simp
  rw [h1]
  have e1 : (decide ('t' = '.')) = false := by decide
  have e2 : (decide ('p' = '.')) = false := by decide
  have e3 : (decide ('.' = '.')) = true := by decide
  have h2 : List.findIdx (fun c => c = '.') ('t' :: 'p' :: '.' :: s.reverse) = 2 := by
    simp [List.findIdx_cons, e1, e2, e3]
  have h3 : 2 < ('t' :: 'p' :: '.' :: s.reverse).length := by
    simp
  simp [h2, h3]

/-- Digit characters are never the path separator. -/
theorem ne_slash_of_isDigit {c : Char} (hc : c.isDigit = true) : c ≠ '/' := by
  intro he; subst he; simp [Char.isDigit] at hc

/-- The stem of the no-wandb checkpoint filename is the zero-padded iteration. -/
theorem stem_ckptFilename_none (i : ℕ) :
    splitextStem (basename (ckptFilename none i)) = zfill 6 (natChars i) := by
  have h1 : ckptFilename none i =
      "checkpoint".toList ++ '/' :: (zfill 6 (natChars i) ++ ['.', 'p', 't']) := by
    simp [ckptFilename]
  rw [h1, basename_concat]
  · exact splitextStem_pt _
  · intro c hc
    rcases List.mem_append.mp hc with hc | hc
    · have hd : c.isDigit = true := by
        rcases List.mem_append.mp hc with hc | hc
        · have := List.eq_of_mem_replicate hc; subst this; decide
        · exact natChars_digits i c hc
      exact ne_slash_of_isDigit hd
    · fin_cases hc <;> decide

/-- C1 (amended): loading a checkpoint written by the training loop always
reproduces the generator/discriminator/EMA/optimizer state dictionaries
bit-identically; the resumed `start_iter` equals the saved iteration for
the filenames written without a wandb run object (`{i:06}.pt`), whose stem
is the bare zero-padded iteration number. -/
theorem C1_checkpoint_roundtrip_amended (runName : Option (List Char))
    (i : ℕ) (ck : Checkpoint) :
    ((resumeFrom (saveCheckpoint runName i ck).1 (saveCheckpoint runName i ck).2 0).g = ck.g ∧
     (resumeFrom (saveCheckpoint runName i ck).1 (saveCheckpoint runName i ck).2 0).d = ck.d ∧
     (resumeFrom (saveCheckpoint runName i ck).1 (saveCheckpoint runName i ck).2 0).g_ema = ck.g_ema ∧
     (resumeFrom (saveCheckpoint runName i ck).1 (saveCheckpoint runName i ck).2 0).g_optim = ck.g_optim ∧
     (resumeFrom (saveCheckpoint runName i ck).1 (saveCheckpoint runName i ck).2 0).d_optim = ck.d_optim) ∧
    (resumeFrom (saveCheckpoint none i ck).1 (saveCheckpoint none i ck).2 0).start_iter = i := by
  refine ⟨⟨rfl, rfl, rfl, rfl, rfl⟩, ?_⟩
  simp only [saveCheckpoint, resumeFrom, stem_ckptFilename_none, pyInt_zfill_natChars]

/-- A concrete checkpoint bundle used for the C1 counterexample. -/
def ckC1ex : Checkpoint :=
  { g := [("w", 1)], d := [("w", 2)], g_ema := [("w", 3)],
    g_optim := [("w", 4)], d_optim := [("w", 5)],
    args := ⟨[]⟩, ada_aug_p := 0 }

/-- C1 counterexample: the checkpoint written at iteration 123 while a wandb
run named `run` exists is `checkpoint/run_000123.pt`; resuming from it the
`int(...)` parse of the stem raises `ValueError` (caught with `pass`), so
`args.start_iter` stays 0 instead of the saved iteration 123. -/
theorem C1_checkpoint_roundtrip_counterexample :
    (saveCheckpoint (some "run".toList) 123 ckC1ex).1 =
      "checkpoint/run_000123.pt".toList ∧
    (resumeFrom (saveCheckpoint (some "run".toList) 123 ckC1ex).1
        (saveCheckpoint (some "run".toList) 123 ckC1ex).2 0).start_iter = 0 ∧
    (0 : ℤ) ≠ 123 := by
  refine ⟨by decide, by decide, by decide⟩

/-! ## Centroid distance normalizer (`train.py` lines 280-316 and 384-407)

`get_distances_embb_torch` (external collaborator from
`miscellaneous.utils`) supplies a batch-by-centroid distance matrix; the
code in `train.py` then takes `torch.min(·, 1)` and pushes each row's
minimum through the robust scaler selected by seven chained equality
checks on the argmin index. -/

/-- A fitted `sklearn` `RobustScaler` restricted to what `transform` uses:
a centering statistic and a scale. -/
structure Scaler where
  center : ℚ
  scale : ℚ
  deriving DecidableEq, Repr

instance : Inhabited Scaler := ⟨⟨0, 1⟩⟩

/-- `RobustScaler.transform` on a single value. -/
def Scaler.transform (s : Scaler) (x : ℚ) : ℚ := (x - s.center) / s.scale

/-- Minimum of a row (`torch.min` value), junk 0 on the empty row. -/
def rowMinVal : List ℚ → ℚ
  | [] => 0
  | x :: xs => xs.foldl min x

/-- `torch.min(row)`: the minimum value and the first index attaining it. -/
def rowMinPair (row : List ℚ) : ℚ × ℕ :=
  (rowMinVal row, row.findIdx (fun v => v = rowMinVal row))

/-- `torch.min(m, 1)` on a batch-by-centroid distance matrix: per-row
minimum value and argmin index. -/
def torchMin1 (m : List (List ℚ)) : List (ℚ × ℕ) := m.map rowMinPair

/-- The seven chained `if index == torch.tensor([k]).cuda()` branches of
`train.py`: each branch that fires appends the row minimum transformed by
`robustscalers[k]`. -/
def branchAppend (rs : List Scaler) (val : ℚ) (index : ℕ) : List ℚ :=
  (if index = 0 then [(rs.getD 0 default).transform val] else []) ++
  (if index = 1 then [(rs.getD 1 default).transform val] else []) ++
  (if index = 2 then [(rs.getD 2 default).transform val] else []) ++
  (if index = 3 then [(rs.getD 3 default).transform val] else []) ++
  (if index = 4 then [(rs.getD 4 default).transform val] else []) ++
  (if index = 5 then [(rs.getD 5 default).transform val] else []) ++
  (if index = 6 then [(rs.getD 6 default).transform val] else [])

/-- Generator-side `scaled_data` assembly (`train.py` 389-404): one pass of
the chained branches per `(val, index)` pair of the batch. -/
def gScaledData (rs : List Scaler) (pairs : List (ℚ × ℕ)) : List ℚ :=
  (pairs.map (fun p => branchAppend rs p.1 p.2)).join

/-- Discriminator-side assembly (`train.py` 289-316): the fake and real
streams are zipped, and *both* appends inside each fired branch are keyed
by the fake sample's argmin index. -/
def dScaledData (rs : List Scaler) (quads : List ((ℚ × ℕ) × (ℚ × ℕ))) :
    List ℚ × List ℚ :=
  ((quads.map (fun q => branchAppend rs q.1.1 q.1.2)).join,
   (quads.map (fun q => branchAppend rs q.2.1 q.1.2)).join)

theorem branchAppend_of_lt (rs : List Scaler) (val : ℚ) {index : ℕ}
    (h : index < 7) :
    branchAppend rs val index = [(rs.getD index default).transform val] := by
  interval_cases index <;> simp [branchAppend]

theorem branchAppend_of_ge (rs : List Scaler) (val : ℚ) {index : ℕ}
    (h : 7 ≤ index) :
    branchAppend rs val index = [] := by
  have h0 : index ≠ 0 := by omega
  have h1 : index ≠ 1 := by omega
  have h2 : index ≠ 2 := by omega
  have h3 : index ≠ 3 := by omega
  have h4 : index ≠ 4 := by omega
  have h5 : index ≠ 5 := by omega
  have h6 : index ≠ 6 := by omega
  simp [branchAppend, h0, h1, h2, h3, h4, h5, h6]

theorem foldl_min_le (xs : List ℚ) :
    ∀ x : ℚ, xs.foldl min x ≤ x ∧ ∀ y ∈ xs, xs.foldl min x ≤ y := by
  induction xs with
  | nil => intro x; exact ⟨le_refl x, by intro y hy; cases hy⟩
  | cons y ys ih =>
    intro x
    obtain ⟨h1, h2⟩ := ih (min x y)
    refine ⟨le_trans h1 (min_le_left x y), ?_⟩
    intro z hz
    rcases List.mem_cons.mp hz with hz | hz
    · rw [hz]; exact le_trans h1 (min_le_right x y)
    · exact h2 z hz

theorem foldl_min_mem (xs : List ℚ) : ∀ x : ℚ, xs.foldl min x ∈ x :: xs := by
  induction xs with
  | nil => intro x; simp
  | cons y ys ih =>
    intro x
    have h := ih (min x y)
    simp only [List.foldl_cons]
    rcases List.mem_cons.mp h with hm | hm
    · rw [hm]
      rcases min_cases x y with ⟨he, _⟩ | ⟨he, _⟩ <;> simp [he]
    · exact List.mem_cons_of_mem _ (List.mem_cons_of_mem _ hm)

theorem rowMinVal_mem {row : List ℚ} (h : row ≠ []) : rowMinVal row ∈ row := by
  cases row with
  | nil => exact absurd rfl h
  | cons x xs => simpa [rowMinVal] using foldl_min_mem xs x

theorem rowMinVal_le {row : List ℚ} : ∀ y ∈ row, rowMinVal row ≤ y := by
  cases row with
  | nil => intro y hy; cases hy
  | cons x xs =>
    intro y hy
    rcases List.mem_cons.mp hy with hy | hy
    · subst hy; exact (foldl_min_le xs y).1
    · exact (foldl_min_le xs x).2 y hy

/-- The argmin index returned by `rowMinPair` is in range. -/
theorem rowMinPair_idx_lt {row : List ℚ} (h : row ≠ []) :
    (rowMinPair row).2 < row.length := by
  have hmem : rowMinVal row ∈ row := rowMinVal_mem h
  exact List.findIdx_lt_length_of_exists ⟨rowMinVal row, hmem, by simp⟩

theorem join_length_of_singletons {α β : Type} (f : α → List β) (l : List α)
    (h : ∀ q ∈ l, (f q).length = 1) : ((l.map f).join).length = l.length := by
  induction l with
  | nil => rfl
  | cons a rest ih =>
    have ha := h a (List.mem_cons_self a rest)
    have hr := ih (fun q hq => h q (List.mem_cons_of_mem a hq))
    simp only [List.map_cons, List.join_cons, List.length_append, ha, hr,
      List.length_cons]
    omega

/-- A concrete bank of seven fitted per-class scalers. -/
def rsSeven : List Scaler :=
  [⟨0, 1⟩, ⟨1, 1⟩, ⟨2, 1⟩, ⟨3, 1⟩, ⟨4, 1⟩, ⟨5, 1⟩, ⟨6, 1⟩]

/-- C2 (amended): for each sample the normalizer selects the class index of
a distance that is minimal over all centroids, and when that index is one
of 0..6 it appends exactly the raw minimum transformed by that class's
scaler; when the selected index is outside 0..6 no chained branch fires and
the sample is silently skipped (no `LookupError`-equivalent is raised), so
the assembled vector can be shorter than the batch. -/
theorem C2_centroid_normalizer_amended (rs : List Scaler) (row : List ℚ)
    (m : List (List ℚ)) (hne : row ≠ []) :
    ((rowMinPair row).1 ∈ row ∧ (∀ x ∈ row, (rowMinPair row).1 ≤ x)) ∧
    ((rowMinPair row).2 < 7 →
      branchAppend rs (rowMinPair row).1 (rowMinPair row).2 =
        [(rs.getD (rowMinPair row).2 default).transform (rowMinPair row).1]) ∧
    (7 ≤ (rowMinPair row).2 →
      branchAppend rs (rowMinPair row).1 (rowMinPair row).2 = []) ∧
    gScaledData rs (torchMin1 m) =
      (m.map (fun r => branchAppend rs (rowMinPair r).1 (rowMinPair r).2)).join := by
  refine ⟨⟨rowMinVal_mem hne, fun x hx => rowMinVal_le x hx⟩, ?_, ?_, ?_⟩
  · intro h; exact branchAppend_of_lt rs _ h
  · intro h; exact branchAppend_of_ge rs _ h
  · simp [gScaledData, torchMin1, List.map_map]
    rfl

theorem C2_centroid_normalizer_amended_witness :
    ([(2 : ℚ), 1, 3, 4, 5, 6, 7] ≠ ([] : List ℚ)) ∧
    (((rowMinPair [(2 : ℚ), 1, 3, 4, 5, 6, 7]).1 ∈ [(2 : ℚ), 1, 3, 4, 5, 6, 7] ∧
      (∀ x ∈ [(2 : ℚ), 1, 3, 4, 5, 6, 7], (rowMinPair [(2 : ℚ), 1, 3, 4, 5, 6, 7]).1 ≤ x)) ∧
     ((rowMinPair [(2 : ℚ), 1, 3, 4, 5, 6, 7]).2 < 7 →
       branchAppend rsSeven (rowMinPair [(2 : ℚ), 1, 3, 4, 5, 6, 7]).1
           (rowMinPair [(2 : ℚ), 1, 3, 4, 5, 6, 7]).2 =
         [(rsSeven.getD (rowMinPair [(2 : ℚ), 1, 3, 4, 5, 6, 7]).2 default).transform
             (rowMinPair [(2 : ℚ), 1, 3, 4, 5, 6, 7]).1]) ∧
     (7 ≤ (rowMinPair [(2 : ℚ), 1, 3, 4, 5, 6, 7]).2 →
       branchAppend rsSeven (rowMinPair [(2 : ℚ), 1, 3, 4, 5, 6, 7]).1
           (rowMinPair [(2 : ℚ), 1, 3, 4, 5, 6, 7]).2 = []) ∧
     gScaledData rsSeven (torchMin1 [[(2 : ℚ), 1]]) =
       ([[(2 : ℚ), 1]].map
         (fun r => branchAppend rsSeven (rowMinPair r).1 (rowMinPair r).2)).join) :=
  ⟨by decide,
   C2_centroid_normalizer_amended rsSeven [(2 : ℚ), 1, 3, 4, 5, 6, 7] [[(2 : ℚ), 1]]
     (by decide)⟩

/-- C2 counterexample: with eight centroids the distance row
`[1,1,1,1,1,1,1,0]` selects index 7, which matches none of the seven
chained branches: the run does not abort with a `LookupError`-equivalent,
it silently produces a normalized vector with zero entries for a batch of
one sample. -/
theorem C2_centroid_normalizer_counterexample :
    torchMin1 [[(1 : ℚ), 1, 1, 1, 1, 1, 1, 0]] = [((0 : ℚ), 7)] ∧
    gScaledData rsSeven (torchMin1 [[(1 : ℚ), 1, 1, 1, 1, 1, 1, 0]]) = [] ∧
    (gScaledData rsSeven (torchMin1 [[(1 : ℚ), 1, 1, 1, 1, 1, 1, 0]])).length ≠
      ([[(1 : ℚ), 1, 1, 1, 1, 1, 1, 0]]).length := by
  refine ⟨by decide, by decide, by decide⟩

/-- C10: with the seven-centroid distance matrix (each row has exactly 7
entries) every sample's argmin index lies in {0,…,6}, exactly one chained
branch fires per sample (each per-sample contribution is a singleton), and
both assembled normalized-distance vectors of the discriminator pass have
exactly one entry per batch sample. -/
theorem C10_seven_class_invariant (rs : List Scaler)
    (mFake mReal : List (List ℚ))
    (hf : ∀ row ∈ mFake, row.length = 7)
    (hlen : mReal.length = mFake.length) :
    (∀ p ∈ torchMin1 mFake, p.2 < 7) ∧
    (∀ p ∈ torchMin1 mFake, (branchAppend rs p.1 p.2).length = 1) ∧
    (dScaledData rs ((torchMin1 mFake).zip (torchMin1 mReal))).1.length =
      mFake.length ∧
    (dScaledData rs ((torchMin1 mFake).zip (torchMin1 mReal))).2.length =
      mFake.length := by
  have hidx : ∀ p ∈ torchMin1 mFake, p.2 < 7 := by
    intro p hp
    obtain ⟨row, hrow, hpe⟩ := List.mem_map.mp hp
    have h7 := hf row hrow
    have hne : row ≠ [] := by
      intro h; rw [h] at h7; simp at h7
    have := rowMinPair_idx_lt hne
    rw [h7] at this
    rw [← hpe]
    exact this
  have hone : ∀ p ∈ torchMin1 mFake, (branchAppend rs p.1 p.2).length = 1 := by
    intro p hp
    rw [branchAppend_of_lt rs p.1 (hidx p hp)]
    rfl
  have hziplen : ((torchMin1 mFake).zip (torchMin1 mReal)).length = mFake.length := by
    simp [List.length_zip, torchMin1, hlen]
  refine ⟨hidx, hone, ?_, ?_⟩
  · rw [dScaledData]
    rw [join_length_of_singletons _ _ ?_, hziplen]
    intro q hq
    have hq1 := (List.of_mem_zip hq).1
    rw [branchAppend_of_lt rs q.1.1 (hidx q.1 hq1)]
    rfl
  · rw [dScaledData]
    rw [join_length_of_singletons _ _ ?_, hziplen]
    intro q hq
    have hq1 := (List.of_mem_zip hq).1
    rw [branchAppend_of_lt rs q.2.1 (hidx q.1 hq1)]
    rfl

theorem C10_seven_class_invariant_witness :
    (∀ row ∈ [[(3 : ℚ), 1, 2, 5, 4, 6, 7]], row.length = 7) ∧
    ([[(1 : ℚ), 2, 3, 4, 5, 6, 0]].length = [[(3 : ℚ), 1, 2, 5, 4, 6, 7]].length) ∧
    ((∀ p ∈ torchMin1 [[(3 : ℚ), 1, 2, 5, 4, 6, 7]], p.2 < 7) ∧
     (∀ p ∈ torchMin1 [[(3 : ℚ), 1, 2, 5, 4, 6, 7]],
       (branchAppend rsSeven p.1 p.2).length = 1) ∧
     (dScaledData rsSeven
       ((torchMin1 [[(3 : ℚ), 1, 2, 5, 4, 6, 7]]).zip
         (torchMin1 [[(1 : ℚ), 2, 3, 4, 5, 6, 0]]))).1.length =
       [[(3 : ℚ), 1, 2, 5, 4, 6, 7]].length ∧
     (dScaledData rsSeven
       ((torchMin1 [[(3 : ℚ), 1, 2, 5, 4, 6, 7]]).zip
         (torchMin1 [[(1 : ℚ), 2, 3, 4, 5, 6, 0]]))).2.length =
       [[(3 : ℚ), 1, 2, 5, 4, 6, 7]].length) :=
  ⟨by decide, by decide,
   C10_seven_class_invariant rsSeven [[(3 : ℚ), 1, 2, 5, 4, 6, 7]]
     [[(1 : ℚ), 2, 3, 4, 5, 6, 0]] (by decide) (by decide)⟩

/-! ## EMA weight tracker: `accumulate` (`train.py` lines 95-100, 249, 461) -/

/-- Lookup in the Python dict built by `dict(model.named_parameters())`. -/
def lookupQ (k : String) : List (String × ℚ) → Option ℚ
  | [] => none
  | (k', v) :: rest => if k' = k then some v else lookupQ k rest

/-- `accumulate(model1, model2, decay)`: iterate over `model1`'s parameter
names; for each name `k`, `par1[k].data.mul_(decay).add_(par2[k].data,
alpha=1-decay)`, i.e. the new value is `decay * par1[k] + (1-decay) *
par2[k]`; a name of `model1` missing from `model2` raises `KeyError`. -/
def accumulate (model1 model2 : List (String × ℚ)) (decay : ℚ) :
    Except PyErr (List (String × ℚ)) :=
  match model1 with
  | [] => .ok []
  | (k, v) :: rest =>
    match lookupQ k model2 with
    | none => .error .keyError
    | some w =>
      match accumulate rest model2 decay with
      | .error e => .error e
      | .ok l => .ok ((k, decay * v + (1 - decay) * w) :: l)

theorem accumulate_lookup (d : ℚ) :
    ∀ (m1 m2 res : List (String × ℚ)), accumulate m1 m2 d = .ok res →
      ∀ (k : String) (v w : ℚ), lookupQ k m1 = some v → lookupQ k m2 = some w →
        lookupQ k res = some (d * v + (1 - d) * w) := by
  intro m1
  induction m1 with
  | nil => intro m2 res h k v w hv _; simp [lookupQ] at hv
  | cons p rest ih =>
    obtain ⟨k', v'⟩ := p
    intro m2 res h k v w hv hw
    simp only [accumulate] at h
    cases h2 : lookupQ k' m2 with
    | none => rw [h2] at h; cases h
    | some w' =>
      rw [h2] at h
      cases hrec : accumulate rest m2 d with
      | error e => rw [hrec] at h; cases h
      | ok l =>
        rw [hrec] at h
        cases h
        by_cases hk : k' = k
        · subst hk
          simp only [lookupQ, if_pos rfl] at hv ⊢
          rw [h2] at hw
          cases hv; cases hw
          rfl
        · simp only [lookupQ, if_neg hk] at hv ⊢
          exact ih m2 l hrec k v w hv hw

/-! ### The training-step schedule (`train.py` lines 258-463) -/

/-- The observable sub-steps of one iteration of the training loop, in the
order the loop body performs them. -/
inductive StepEvent where
  | dOptimStep
  | augTune
  | dRegStep
  | gOptimStep
  | gRegStep
  | emaAccumulate
  | metricReduce
  deriving DecidableEq, Repr

/-- One iteration of the training loop as the sequence of sub-steps it
performs: discriminator optimizer step, adaptive-augmentation tuning (when
`args.augment` and `args.augment_p == 0`), R1 regularization every
`d_reg_every` iterations, generator optimizer step, path regularization
every `g_reg_every` iterations, the EMA `accumulate` call, and the loss
dict reduction. -/
def stepEvents (i d_reg_every g_reg_every : ℕ)
    (augmentFlag augmentPZero : Bool) : List StepEvent :=
  [.dOptimStep] ++
  (if augmentFlag && augmentPZero then [.augTune] else []) ++
  (if i % d_reg_every = 0 then [.dRegStep] else []) ++
  [.gOptimStep] ++
  (if i % g_reg_every = 0 then [.gRegStep] else []) ++
  [.emaAccumulate, .metricReduce]

/-- `accum = 0.5 ** (32 / (10 * 1000))` (`train.py` line 249). -/
noncomputable def accum : ℝ := (0.5 : ℝ) ^ ((32 : ℝ) / (10 * 1000))

/-- The decay constant as the spec states it: `0.5 ** (32 / 10000)`. -/
noncomputable def accumSpec : ℝ := (0.5 : ℝ) ^ ((32 : ℝ) / 10000)

/-- C3: after `accumulate(target, source, d)` every parameter name of the
target holds `d * old_target + (1-d) * source`; the training loop's decay
constant equals `0.5 ** (32/10000)` and lies in `(0,1)`; and each loop
iteration performs the EMA `accumulate` exactly once, after the generator
optimizer step. -/
theorem C3_ema_accumulate (d : ℚ) (h0 : 0 < d) (h1 : d < 1)
    (m1 m2 res : List (String × ℚ)) (hres : accumulate m1 m2 d = .ok res)
    (k : String) (v w : ℚ)
    (hv : lookupQ k m1 = some v) (hw : lookupQ k m2 = some w) :
    lookupQ k res = some (d * v + (1 - d) * w) ∧
    accum = accumSpec ∧ 0 < accum ∧ accum < 1 ∧
    (∀ (i dre gre : ℕ) (af apz : Bool),
      (stepEvents i dre gre af apz).count .emaAccumulate = 1 ∧
      (stepEvents i dre gre af apz).findIdx (fun e => e = StepEvent.gOptimStep) <
        (stepEvents i dre gre af apz).findIdx
          (fun e => e = StepEvent.emaAccumulate)) := by
  refine ⟨accumulate_lookup d m1 m2 res hres k v w hv hw, ?_, ?_, ?_, ?_⟩
  · unfold accum accumSpec; norm_num
  · exact Real.rpow_pos_of_pos (by norm_num) _
  · exact Real.rpow_lt_one (by norm_num) (by norm_num) (by norm_num)
  · intro i dre gre af apz
    by_cases hd : i % dre = 0 <;> by_cases hg : i % gre = 0 <;>
      cases af <;> cases apz <;>
      simp [stepEvents, hd, hg] <;> decide

theorem C3_ema_accumulate_witness :
    (0 : ℚ) < 1/2 ∧ (1/2 : ℚ) < 1 ∧
    accumulate [("a", 2)] [("a", 4)] (1/2) =
      .ok [("a", (1/2 : ℚ) * 2 + (1 - 1/2) * 4)] ∧
    lookupQ "a" [("a", (2 : ℚ))] = some 2 ∧
    lookupQ "a" [("a", (4 : ℚ))] = some 4 ∧
    (lookupQ "a" [("a", (1/2 : ℚ) * 2 + (1 - 1/2) * 4)] =
        some ((1/2 : ℚ) * 2 + (1 - 1/2) * 4) ∧
      accum = accumSpec ∧ 0 < accum ∧ accum < 1 ∧
      (∀ (i dre gre : ℕ) (af apz : Bool),
        (stepEvents i dre gre af apz).count .emaAccumulate = 1 ∧
        (stepEvents i dre gre af apz).findIdx (fun e => e = StepEvent.gOptimStep) <
          (stepEvents i dre gre af apz).findIdx
            (fun e => e = StepEvent.emaAccumulate))) :=
  ⟨by norm_num, by norm_num, rfl, rfl, rfl,
   C3_ema_accumulate (1/2) (by norm_num) (by norm_num)
     [("a", 2)] [("a", 4)] [("a", (1/2 : ℚ) * 2 + (1 - 1/2) * 4)] rfl
     "a" 2 4 rfl rfl⟩

/-- C8 (amended): `accumulate` raises a `KeyError`-equivalent exactly when
some parameter name of the target is absent from the source; names present
only in the source are silently ignored and the call completes, updating
just the target's parameters. -/
theorem C8_accumulate_mismatch_amended (m2 : List (String × ℚ)) (d : ℚ) :
    ∀ m1 : List (String × ℚ),
      (∃ e, accumulate m1 m2 d = .error e) ↔
        ∃ k ∈ m1.map Prod.fst, lookupQ k m2 = none := by
  intro m1
  induction m1 with
  | nil =>
    simp only [accumulate, List.map_nil]
    constructor
    · rintro ⟨e, he⟩; cases he
    · rintro ⟨k, hk, _⟩; cases hk
  | cons p rest ih =>
    obtain ⟨k', v'⟩ := p
    simp only [accumulate]
    cases h2 : lookupQ k' m2 with
    | none =>
      constructor
      · intro _; exact ⟨k', by simp, h2⟩
      · intro _; exact ⟨.keyError, rfl⟩
    | some w =>
      cases hrec : accumulate rest m2 d with
      | error e =>
        constructor
        · intro _
          obtain ⟨k, hk, hl⟩ := ih.mp ⟨e, hrec⟩
          exact ⟨k, List.mem_cons_of_mem _ hk, hl⟩
        · intro _; exact ⟨e, rfl⟩
      | ok l =>
        constructor
        · rintro ⟨e, he⟩; cases he
        · rintro ⟨k, hk, hl⟩
          rcases List.mem_cons.mp hk with hk | hk
          · subst hk; rw [h2] at hl; cases hl
          · obtain ⟨e, he⟩ := ih.mpr ⟨k, hk, hl⟩
            rw [hrec] at he
            cases he

/-- C8 counterexample: target has parameter set `{a}`, source has `{a, b}`
— the name sets differ, yet `accumulate` completes without any error,
silently updating only the common parameter `a`. -/
theorem C8_accumulate_mismatch_counterexample :
    ([("a", (1 : ℚ))].map Prod.fst ≠
      [("a", (2 : ℚ)), ("b", 3)].map Prod.fst) ∧
    accumulate [("a", (1 : ℚ))] [("a", 2), ("b", 3)] (1/2) =
      .ok [("a", (1/2 : ℚ) * 1 + (1 - 1/2) * 2)] := by
  exact ⟨by decide, rfl⟩

/-! ## Loss functions (`train.py` lines 109-145) -/

/-- `.mean()` of a 1-D tensor. -/
def listMean {α : Type} [DivisionRing α] (l : List α) : α := l.sum / l.length

/-- `F.softplus`. -/
noncomputable def softplus (x : ℝ) : ℝ := Real.log (1 + Real.exp x)

/-- `d_logistic_loss(real_pred, fake_pred, centroid_distances=None)`:
element-wise softplus losses; with the centroid term enabled it returns the
pair `(total, fake_distance_loss)`, otherwise just the total (modelled as a
`none` second component). -/
noncomputable def d_logistic_loss (real_pred fake_pred : List ℝ)
    (centroid_distances : Option (List ℝ)) : ℝ × Option ℝ :=
  let real_loss := real_pred.map (fun x => softplus (-x))
  let fake_loss := fake_pred.map softplus
  match centroid_distances with
  | some cd =>
    let fake_distance_loss := listMean (cd.map softplus)
    (listMean real_loss + listMean fake_loss + fake_distance_loss,
     some fake_distance_loss)
  | none => (listMean real_loss + listMean fake_loss, none)

/-- `g_nonsaturating_loss(fake_pred, centroid_distances=None)`. -/
noncomputable def g_nonsaturating_loss (fake_pred : List ℝ)
    (centroid_distances : Option (List ℝ)) : ℝ :=
  match centroid_distances with
  | some cd =>
    listMean (fake_pred.map (fun x => softplus (-x))) +
      listMean (cd.map softplus)
  | none => listMean (fake_pred.map (fun x => softplus (-x)))

/-- The discriminator loss exactly as the spec words it. -/
noncomputable def dLossSpec (real_pred fake_pred : List ℝ)
    (ncd : Option (List ℝ)) : ℝ :=
  listMean (real_pred.map (fun x => softplus (-x))) +
    listMean (fake_pred.map softplus) +
    (match ncd with
     | some c => listMean (c.map softplus)
     | none => 0)

/-- The generator loss exactly as the spec words it. -/
noncomputable def gLossSpec (fake_pred : List ℝ) (ncd : Option (List ℝ)) : ℝ :=
  listMean (fake_pred.map (fun x => softplus (-x))) +
    (match ncd with
     | some c => listMean (c.map softplus)
     | none => 0)

/-- C4: for every batch of predictions (and optional normalized centroid
distance vector), the discriminator loss computed by `d_logistic_loss`
equals `softplus(-real_pred).mean() + softplus(fake_pred).mean()` plus the
centroid term when enabled, its reported auxiliary component is that
centroid term, and `g_nonsaturating_loss` equals
`softplus(-fake_pred).mean()` plus the same centroid term when enabled. -/
theorem C4_loss_definitions (real_pred fake_pred : List ℝ)
    (cd : Option (List ℝ)) :
    (d_logistic_loss real_pred fake_pred cd).1 =
      dLossSpec real_pred fake_pred cd ∧
    (d_logistic_loss real_pred fake_pred cd).2 =
      cd.map (fun c => listMean (c.map softplus)) ∧
    g_nonsaturating_loss fake_pred cd = gLossSpec fake_pred cd := by
  cases cd <;>
    simp [d_logistic_loss, dLossSpec, g_nonsaturating_loss, gLossSpec]

/-- `g_path_regularize(fake_img, latents, mean_path_length, decay=0.01)`
from the per-sample latent gradient `grad` supplied by `autograd.grad`
(external): `path_lengths = sqrt(grad.pow(2).sum(2).mean(1))`, the running
mean update, and the penalty.  Returns
`(path_penalty, path_mean, path_lengths)`; the source's `.detach()` is the
numeric identity.  The source's default decay is `0.01`. -/
noncomputable def g_path_regularize (grad : List (List (List ℝ)))
    (mean_path_length : ℝ) (decay : ℝ) : ℝ × ℝ × List ℝ :=
  let path_lengths := grad.map (fun sample =>
    Real.sqrt (listMean (sample.map (fun row => (row.map (fun x => x ^ 2)).sum))))
  let path_mean :=
    mean_path_length + decay * (listMean path_lengths - mean_path_length)
  let path_penalty := listMean (path_lengths.map (fun x => (x - path_mean) ^ 2))
  (path_penalty, path_mean, path_lengths)

/-- C6: `g_path_regularize` updates the running mean as
`mean + decay * (observed_mean - mean)` (decay 0.01 by default); with
`mean_path_length = 0` the updated mean is `decay * (observed_mean - 0)`;
and the penalty is the mean squared deviation of the per-sample path
lengths from the updated mean. -/
theorem C6_path_regularize (grad : List (List (List ℝ))) (mpl decay : ℝ) :
    (g_path_regularize grad mpl decay).2.1 =
      mpl + decay * (listMean (g_path_regularize grad mpl decay).2.2 - mpl) ∧
    (g_path_regularize grad mpl (1/100)).2.1 =
      mpl + (1/100) * (listMean (g_path_regularize grad mpl (1/100)).2.2 - mpl) ∧
    (g_path_regularize grad 0 decay).2.1 =
      decay * (listMean (g_path_regularize grad 0 decay).2.2 - 0) ∧
    (g_path_regularize grad mpl decay).1 =
      listMean ((g_path_regularize grad mpl decay).2.2.map
        (fun x => (x - (g_path_regularize grad mpl decay).2.1) ^ 2)) := by
  refine ⟨rfl, rfl, ?_, rfl⟩
  simp [g_path_regularize]

/-! ## Latent noise sampling (`train.py` lines 148-162)

`torch.randn` is modelled as reading consecutive values from an i.i.d.
source stream `σ : ℕ → ℚ` starting at an offset, so disjoint offset ranges
are independent draws. -/

/-- A dense tensor: shape plus row-major data. -/
structure Tensor where
  shape : List ℕ
  data : List ℚ
  deriving DecidableEq, Repr

/-- `torch.randn(shape, device=device)` at stream offset `off`. -/
def randn (σ : ℕ → ℚ) (off : ℕ) (shape : List ℕ) : Tensor :=
  ⟨shape, (List.range shape.prod).map (fun j => σ (off + j))⟩

/-- `Tensor.unbind(0)`: split along the leading dimension. -/
def unbind0 (t : Tensor) : List Tensor :=
  match t.shape with
  | [] => []
  | n :: rest =>
    (List.range n).map
      (fun k => ⟨rest, (t.data.drop (k * rest.prod)).take rest.prod⟩)

/-- `make_noise` returns a bare tensor for `n_noise == 1` and a tuple of
tensors otherwise. -/
inductive NoiseOut where
  | single (t : Tensor)
  | multi (ts : List Tensor)
  deriving DecidableEq, Repr

/-- `make_noise(batch, latent_dim, n_noise, device)`. -/
def make_noise (batch latent_dim n_noise : ℕ) (σ : ℕ → ℚ) (off : ℕ) :
    NoiseOut :=
  if n_noise = 1 then .single (randn σ off [batch, latent_dim])
  else .multi (unbind0 (randn σ off [n_noise, batch, latent_dim]))

/-- `mixing_noise(batch, latent_dim, prob, device)` where `r` is the value
drawn by `random.random()` (so `0 ≤ r < 1`): with probability gate
`prob > 0 and r < prob` it returns the two style-mixing latents, else a
one-element list. -/
def mixing_noise (batch latent_dim : ℕ) (prob r : ℚ) (σ : ℕ → ℚ) (off : ℕ) :
    List Tensor :=
  if prob > 0 ∧ r < prob then
    match make_noise batch latent_dim 2 σ off with
    | .single t => [t]
    | .multi ts => ts
  else
    match make_noise batch latent_dim 1 σ off with
    | .single t => [t]
    | .multi ts => ts

theorem slice_range_map_take (f : ℕ → ℚ) (m n : ℕ) :
    ((List.range (m + n)).map f).take m = (List.range m).map f := by
  rw [List.range_add, List.map_append]
  exact List.take_left' (by simp)

theorem slice_range_map_drop (f : ℕ → ℚ) (m n : ℕ) :
    ((List.range (m + n)).map f).drop m =
      (List.range n).map (fun j => f (m + j)) := by
  rw [List.range_add, List.map_append, List.drop_left' (by simp),
    List.map_map]
  rfl

theorem make_noise_two (batch latent_dim : ℕ) (σ : ℕ → ℚ) (off : ℕ) :
    make_noise batch latent_dim 2 σ off = .multi
      [⟨[batch, latent_dim],
        (List.range (batch * latent_dim)).map (fun j => σ (off + j))⟩,
       ⟨[batch, latent_dim],
        (List.range (batch * latent_dim)).map
          (fun j => σ (off + (batch * latent_dim + j)))⟩] := by
  have h2 : (2 : ℕ) ≠ 1 := by norm_num
  have hprod : ([2, batch, latent_dim] : List ℕ).prod =
      batch * latent_dim + batch * latent_dim := by simp; ring
  have hrest : ([batch, latent_dim] : List ℕ).prod = batch * latent_dim := by
    simp
  unfold make_noise
  rw [if_neg h2]
  unfold randn unbind0
  simp only [hprod, hrest]
  have hr2 : List.range 2 = [0, 1] := rfl
  rw [hr2]
  simp only [List.map_cons, List.map_nil, Nat.zero_mul, Nat.one_mul,
    List.drop_zero]
  rw [slice_range_map_take, slice_range_map_drop]
  simp

/-- C5: with `prob = 0` `mixing_noise(4, 512, 0, cpu)` is a one-element
list holding a single `[4,512]` tensor; with `prob = 1` and any draw
`0 ≤ r < 1` of `random.random()` it is a two-element list of
`[batch, latent_dim]` tensors filled from disjoint (independent) segments
of the noise stream. -/
theorem C5_mixing_noise (σ : ℕ → ℚ) (off : ℕ) (r : ℚ)
    (batch latent_dim : ℕ) (h0 : 0 ≤ r) (h1 : r < 1) :
    (mixing_noise 4 512 0 r σ off = [randn σ off [4, 512]] ∧
     (randn σ off [4, 512]).shape = [4, 512] ∧
     (mixing_noise 4 512 0 r σ off).length = 1) ∧
    (mixing_noise batch latent_dim 1 r σ off =
      [⟨[batch, latent_dim],
        (List.range (batch * latent_dim)).map (fun j => σ (off + j))⟩,
       ⟨[batch, latent_dim],
        (List.range (batch * latent_dim)).map
          (fun j => σ (off + (batch * latent_dim + j)))⟩] ∧
     (mixing_noise batch latent_dim 1 r σ off).length = 2) := by
  have hzero : ¬ ((0 : ℚ) > 0 ∧ r < 0) := by
    rintro ⟨h, _⟩; exact absurd h (by norm_num)
  have hone : (1 : ℚ) > 0 ∧ r < 1 := ⟨by norm_num, h1⟩
  have hbranch0 : mixing_noise 4 512 0 r σ off = [randn σ off [4, 512]] := by
    unfold mixing_noise
    rw [if_neg hzero]
    unfold make_noise
    rw [if_pos rfl]
  have hbranch1 : mixing_noise batch latent_dim 1 r σ off =
      [⟨[batch, latent_dim],
        (List.range (batch * latent_dim)).map (fun j => σ (off + j))⟩,
       ⟨[batch, latent_dim],
        (List.range (batch * latent_dim)).map
          (fun j => σ (off + (batch * latent_dim + j)))⟩] := by
    unfold mixing_noise
    rw [if_pos hone, make_noise_two]
  refine ⟨⟨hbranch0, rfl, by rw [hbranch0]; rfl⟩, hbranch1, by rw [hbranch1]; rfl⟩

theorem C5_mixing_noise_witness :
    (0 : ℚ) ≤ 1/2 ∧ (1/2 : ℚ) < 1 ∧
    ((mixing_noise 4 512 0 (1/2) (fun _ => 0) 0 =
        [randn (fun _ => 0) 0 [4, 512]] ∧
      (randn (fun _ => (0 : ℚ)) 0 [4, 512]).shape = [4, 512] ∧
      (mixing_noise 4 512 0 (1/2) (fun _ => 0) 0).length = 1) ∧
     (mixing_noise 3 5 1 (1/2) (fun _ => 0) 0 =
        [⟨[3, 5], (List.range (3 * 5)).map (fun j => (fun _ => (0 : ℚ)) (0 + j))⟩,
         ⟨[3, 5], (List.range (3 * 5)).map
            (fun j => (fun _ => (0 : ℚ)) (0 + (3 * 5 + j)))⟩] ∧
      (mixing_noise 3 5 1 (1/2) (fun _ => 0) 0).length = 2)) :=
  ⟨by norm_num, by norm_num,
   C5_mixing_noise (fun _ => 0) 0 (1/2) 3 5 (by norm_num) (by norm_num)⟩

/-! ## Inference sampler (`generate.py` lines 8-56, 115-120) -/

/-- Python `str` of an integer label. -/
def intChars (z : ℤ) : List Char :=
  if z < 0 then '-' :: natChars z.natAbs else natChars z.natAbs

/-- `torch.nn.functional.one_hot(label, num_classes)`: the one-hot vector,
or a `RuntimeError` when the class index is out of range. -/
def oneHot (label num_classes : ℕ) : Except PyErr (List ℚ) :=
  if label < num_classes then
    .ok ((List.range num_classes).map (fun j => if j = label then 1 else 0))
  else .error .runtimeError

/-- Filename of a conditional sample:
`generated_samples/conditional/{file_name}-{label}_{i:06}.png`. -/
def condFileName (file_name : List Char) (label : ℤ) (i : ℕ) : List Char :=
  "generated_samples/conditional/".toList ++ file_name ++
    ('-' :: intChars label) ++ ('_' :: zfill 6 (natChars i)) ++ ".png".toList

/-- The `label == -1` inner loop of `generate` for one picture index `i`:
`for label in range(0, 7)`, one-hot encode against `num_classes`, invoke
the generator, save the image.  Saved images are recorded as
`(label, filename)`. -/
def sweepSaves (file_name : List Char) (num_classes i : ℕ) :
    Except PyErr (List (ℕ × List Char)) :=
  (List.range 7).mapM (fun label =>
    (oneHot label num_classes).map
      (fun _ => (label, condFileName file_name label i)))

/-- The conditional branch of `generate(args, g_ema, device, mean_latent)`:
for each of `pics` pictures, either sweep labels 0..6 (when
`args.label == -1`) or save the single requested label. -/
def generateConditional (file_name : List Char) (pics num_classes : ℕ)
    (label : ℤ) : Except PyErr (List (ℕ × List Char)) :=
  if label = -1 then
    ((List.range pics).mapM (fun i => sweepSaves file_name num_classes i)).map
      List.join
  else
    (List.range pics).mapM (fun i =>
      (oneHot label.toNat num_classes).map
        (fun _ => (label.toNat, condFileName file_name label i)))

/-- Labels of the images a `generate` call persisted (empty on abort). -/
def savedLabels (r : Except PyErr (List (ℕ × List Char))) : List ℕ :=
  match r with
  | .ok l => l.map Prod.fst
  | .error _ => []

theorem mapM_ok {α β : Type} (f : α → Except PyErr β) (g : α → β) :
    ∀ l : List α, (∀ a ∈ l, f a = .ok (g a)) → l.mapM f = .ok (l.map g) := by
  intro l
  induction l with
  | nil => intro _; rfl
  | cons a rest ih =>
    intro h
    rw [List.mapM_cons, h a (List.mem_cons_self a rest),
      ih (fun x hx => h x (List.mem_cons_of_mem a hx))]
    rfl

theorem sweepSaves_of_ge (fn : List Char) (nc i : ℕ) (h : 7 ≤ nc) :
    sweepSaves fn nc i =
      .ok ((List.range 7).map (fun l : ℕ => (l, condFileName fn (l : ℤ) i))) := by
  unfold sweepSaves
  apply mapM_ok
  intro l hl
  have hlt : l < nc := lt_of_lt_of_le (List.mem_range.mp hl) h
  rw [oneHot, if_pos hlt]
  rfl

/-- C7 (amended): in conditional mode with no class specified
(`label = -1`) the sampler persists, for every picture, one image for each
class index 0..6 — the sweep is hard-coded to `range(0, 7)`, so it covers
all classes exactly when `num_classes = 7`; larger class counts are not
swept beyond 6 (and `num_classes < 7` aborts in `one_hot`). -/
theorem C7_generate_sweep_amended (fn : List Char) (pics nc : ℕ)
    (h : 7 ≤ nc) :
    generateConditional fn pics nc (-1) =
      .ok (((List.range pics).map (fun i =>
        (List.range 7).map (fun l : ℕ => (l, condFileName fn (l : ℤ) i)))).join) ∧
    (∀ i : ℕ,
      ((List.range 7).map (fun l : ℕ => (l, condFileName fn (l : ℤ) i))).map Prod.fst =
        List.range 7) := by
  constructor
  · unfold generateConditional
    rw [if_pos rfl,
      mapM_ok _ (fun i => (List.range 7).map (fun l : ℕ => (l, condFileName fn (l : ℤ) i)))
        _ (fun i _ => sweepSaves_of_ge fn nc i h)]
    rfl
  · intro i
    rw [List.map_map,
      show (Prod.fst ∘ fun l : ℕ => (l, condFileName fn (l : ℤ) i)) = id from rfl,
      List.map_id]

theorem C7_generate_sweep_amended_witness :
    7 ≤ 7 ∧
    (generateConditional "x".toList 1 7 (-1) =
        .ok (((List.range 1).map (fun i =>
          (List.range 7).map (fun l : ℕ => (l, condFileName "x".toList (l : ℤ) i)))).join) ∧
      (∀ i : ℕ,
        ((List.range 7).map
          (fun l : ℕ => (l, condFileName "x".toList (l : ℤ) i))).map Prod.fst =
          List.range 7)) :=
  ⟨by norm_num, C7_generate_sweep_amended "x".toList 1 7 (by norm_num)⟩

/-- C7 counterexample: with `num_classes = 9` configured and no label
specified, the sampler saves images only for classes 0..6 — not one image
per class index 0..8 as the claim requires. -/
theorem C7_generate_sweep_counterexample :
    savedLabels (generateConditional "x".toList 1 9 (-1)) =
      [0, 1, 2, 3, 4, 5, 6] ∧
    savedLabels (generateConditional "x".toList 1 9 (-1)) ≠ List.range 9 := by
  refine ⟨by decide, by decide⟩

/-! ## wandb import guard and the rank-0 checkpoint branch
(`train.py` lines 24-28 and 475-514) -/

/-- A live wandb run object. -/
structure WandbRun where
  name : List Char
  deriving DecidableEq, Repr

/-- The imported wandb module: its `run` attribute is `None` until
`wandb.init` is called. -/
structure WandbModule where
  run : Option WandbRun
  deriving DecidableEq, Repr

/-- Attribute access `wandb.run` on the module object bound by the import
guard; when the import failed the name `wandb` is bound to `None`, and the
access raises `AttributeError`. -/
def wandbRunAttr : Option WandbModule → Except PyErr (Option WandbRun)
  | none => .error .attributeError
  | some w => .ok w.run

/-- Python truthiness of `wandb` in `if wandb and args.wandb`. -/
def wandbTruthy : Option WandbModule → Bool
  | none => false
  | some _ => true

/-- Observable side effects of the rank-0 tail of a training iteration. -/
inductive Effect where
  | progressBar
  | wandbLog
  | sampleImage (i : ℕ)
  | telegramSend
  | wandbGridLog
  | checkpointWrite (fname : List Char)
  deriving DecidableEq, Repr

/-- The rank-0 tail of one iteration (`train.py` 475-514): progress-bar
update, guarded wandb logging, the `i % 100 == 0` sample/telegram block,
then the `i % 5000 == 0` block whose first action dereferences
`wandb.run`.  Returns the effects performed in order, and the exception
(if any) that aborts the iteration at that point. -/
def rank0Tail (wandb : Option WandbModule) (useWandb : Bool) (i : ℕ) :
    List Effect × Option PyErr :=
  let logs := [Effect.progressBar] ++
    (if wandbTruthy wandb && useWandb then [Effect.wandbLog] else [])
  let sampleFx :=
    if i % 100 = 0 then
      [Effect.sampleImage i, Effect.telegramSend] ++
        (if wandbTruthy wandb && useWandb then [Effect.wandbGridLog] else [])
    else []
  if i % 5000 = 0 then
    match wandbRunAttr wandb with
    | .error e => (logs ++ sampleFx, some e)
    | .ok (some r) =>
      (logs ++ sampleFx ++
        [Effect.checkpointWrite (ckptFilename (some r.name) i)], none)
    | .ok none =>
      (logs ++ sampleFx ++ [Effect.checkpointWrite (ckptFilename none i)],
       none)
  else (logs ++ sampleFx, none)

/-- C9: when the wandb import failed (`wandb = None`), every rank-0
iteration `i = idx + start_iter` (fresh run: `start_iter = 0`) with
`i % 5000 == 0` — including the very first iteration `i = 0` — reaches the
checkpoint block, dereferences `wandb.run` on `None` and aborts with
`AttributeError` before writing any checkpoint; with the import in place
the block never raises `AttributeError`. -/
theorem C9_wandb_none_checkpoint_crash (useWandb : Bool) (idx : ℕ)
    (h : (idx + 0) % 5000 = 0) :
    (rank0Tail none useWandb (idx + 0)).2 = some PyErr.attributeError ∧
    (∀ f, Effect.checkpointWrite f ∉ (rank0Tail none useWandb (idx + 0)).1) ∧
    (0 + 0) % 5000 = 0 ∧
    (∀ w : WandbModule, (rank0Tail (some w) useWandb (idx + 0)).2 = none) := by
  refine ⟨?_, ?_, by norm_num, ?_⟩
  · unfold rank0Tail
    rw [if_pos h]
    rfl
  · intro f
    unfold rank0Tail
    rw [if_pos h]
    by_cases h100 : (idx + 0) % 100 = 0 <;>
      simp [wandbTruthy, wandbRunAttr, h100]
  · intro w
    unfold rank0Tail
    rw [if_pos h]
    cases hw : w.run <;> simp [wandbRunAttr, hw]

theorem C9_wandb_none_checkpoint_crash_witness :
    ((0 + 0) % 5000 = 0) ∧
    ((rank0Tail none false (0 + 0)).2 = some PyErr.attributeError ∧
     (∀ f, Effect.checkpointWrite f ∉ (rank0Tail none false (0 + 0)).1) ∧
     (0 + 0) % 5000 = 0 ∧
     (∀ w : WandbModule, (rank0Tail (some w) false (0 + 0)).2 = none)) :=
  ⟨by norm_num, C9_wandb_none_checkpoint_crash false 0 (by norm_num)⟩

end StyleGan2
